import Mathlib

/-!
Verification development for `newIDE/electron-app/app/ServeFolder.js`:
a per-window local HTTP(S) static file server manager for previews.

The JavaScript module is shallowly embedded:
* the process-wide `serversByWindow` JS `Map` becomes an association list
  from window ids to server records;
* the asynchronous collaborators (`getAvailablePort`, `httpServer.listen`,
  `httpServer.close`, `fs.readFile`) become oracle parameters carrying the
  outcome the runtime would deliver to the corresponding callback;
* the request handler becomes a pure function from the request URL and the
  file-system read outcome to either a `Response` or an exception that
  escapes the handler (there is no try/catch around `decodeURIComponent`).

Opaque JavaScript error objects are modelled as `Nat` codes; the code under
study only ever forwards them verbatim to callbacks. String manipulation is
carried out on `List Char` so that every definition evaluates by kernel
reduction on concrete inputs.
-/

namespace ServeFolder

/-! ## Request-handler side: URL parsing, decoding, path resolution -/

/-- The pathname of a request URL in origin form, as extracted by
`url.parse(req.url).pathname`: everything before the query or fragment. -/
def urlPathname (u : String) : String :=
  String.mk (u.toList.takeWhile (fun c => c != '?' && c != '#'))

/-- Value of a hexadecimal digit character, `none` for non-hex characters. -/
def hexVal (c : Char) : Option Nat :=
  if '0' ≤ c ∧ c ≤ '9' then some (c.toNat - '0'.toNat)
  else if 'a' ≤ c ∧ c ≤ 'f' then some (c.toNat - 'a'.toNat + 10)
  else if 'A' ≤ c ∧ c ≤ 'F' then some (c.toNat - 'A'.toNat + 10)
  else none

/-- Percent-decoding of a character list: a `%` must be followed by two hex
digits, otherwise decoding fails (JavaScript `decodeURIComponent` throws a
`URIError`). Decoded escape bytes are kept as single characters; the
multi-byte UTF-8 recombination step is not modelled, which is faithful for
the ASCII inputs used throughout (ASCII characters decode to themselves and
malformed escapes fail in both). -/
def decodeChars : List Char → Option (List Char)
  | [] => some []
  | '%' :: h1 :: h2 :: t =>
    match hexVal h1, hexVal h2 with
    | some a, some b => (decodeChars t).map (fun cs => Char.ofNat (16 * a + b) :: cs)
    | _, _ => none
  | '%' :: _ => none
  | c :: t => (decodeChars t).map (fun cs => c :: cs)

/-- Model of JavaScript `decodeURIComponent` on the request pathname:
`none` models the thrown `URIError`. -/
def decodeURIComponent (s : String) : Option String :=
  (decodeChars s.toList).map String.mk

/-- Split a character list into its `/`-separated segments. -/
def splitSegs : List Char → List (List Char)
  | [] => [[]]
  | '/' :: t => [] :: splitSegs t
  | c :: t =>
    match splitSegs t with
    | s :: ss => (c :: s) :: ss
    | [] => [[c]]

/-- Stack-based segment normalization used by Node `path.posix.join`:
empty and `.` segments are dropped; `..` pops the previous segment when
possible (at the root of an absolute path it is dropped; in a relative path
with nothing to pop it is kept). The accumulator holds the segments kept so
far, in reverse. -/
def normalizeSegs (isAbs : Bool) : List (List Char) → List (List Char) → List (List Char)
  | stack, [] => stack.reverse
  | stack, seg :: rest =>
    if seg = [] ∨ seg = ['.'] then normalizeSegs isAbs stack rest
    else if seg = ['.', '.'] then
      match stack with
      | top :: stack2 =>
        if top = ['.', '.'] then normalizeSegs isAbs (['.', '.'] :: top :: stack2) rest
        else normalizeSegs isAbs stack2 rest
      | [] => if isAbs then normalizeSegs isAbs [] rest else normalizeSegs isAbs [['.', '.']] rest
    else normalizeSegs isAbs (seg :: stack) rest

/-- Interleave `/` between segments. -/
def joinSegs : List (List Char) → List Char
  | [] => []
  | [s] => s
  | s :: rest => s ++ '/' :: joinSegs rest

/-- `pathJoin` on character lists: concatenate with a separator and
normalize the segments. -/
def pathJoinChars (a b : List Char) : List Char :=
  let joined := a ++ '/' :: b
  let isAbs : Bool := match joined with
    | '/' :: _ => true
    | _ => false
  let core := joinSegs (normalizeSegs isAbs [] (splitSegs joined))
  if isAbs then '/' :: core
  else if core = [] then ['.'] else core

/-- Model of Node `path.join(a, b)` (posix): concatenate with a separator and
normalize. There is no canonicalization against a root directory and no
bound check: `..` segments are resolved purely textually, so the result can
leave `a`. Trailing-slash preservation is not modelled; no path in this
development ends in a separator after the `index.html` completion. -/
def pathJoin (a b : String) : String :=
  String.mk (pathJoinChars a.toList b.toList)

/-- Model of Node `path.extname` on the characters of a path: the suffix of
the basename from its last dot (inclusive); empty when the basename has no
dot, when its only dot is at position 0 (dotfiles), or when the basename is
`..`. -/
def extnameChars (p : List Char) : List Char :=
  let base := (splitSegs p).getLastD []
  if base = ['.', '.'] then []
  else
    let afterRev := base.reverse.takeWhile (fun c => c != '.')
    if afterRev.length = base.length then []
    else
      let i := base.length - afterRev.length - 1
      if i = 0 then [] else base.drop i

/-- Model of Node `path.extname`. -/
def extname (p : String) : String :=
  String.mk (extnameChars p.toList)

/-- The fixed extension → MIME table from the request handler, verbatim. -/
def contentTypes : List (String × String) :=
  [ (".html", "text/html"),
    (".js", "text/javascript"),
    (".css", "text/css"),
    (".json", "application/json"),
    (".png", "image/png"),
    (".jpg", "image/jpg"),
    (".gif", "image/gif"),
    (".svg", "image/svg+xml"),
    (".wav", "audio/wav"),
    (".mp3", "audio/mpeg"),
    (".mp4", "video/mp4"),
    (".woff", "font/woff"),
    (".woff2", "font/woff2"),
    (".ttf", "font/ttf") ]

/-- Exact (case-sensitive) association-list lookup, the semantics of the
JavaScript property access `contentTypes[ext]`. -/
def assocLookup : List (String × String) → String → Option String
  | [], _ => none
  | (k, v) :: t, s => if k = s then some v else assocLookup t s

/-- `contentTypes[ext] || 'application/octet-stream'` for a file path. -/
def contentTypeFor (filePath : String) : String :=
  (assocLookup contentTypes (extname filePath)).getD "application/octet-stream"

/-- Does the character list end in a path separator? -/
def endsWithSep (cs : List Char) : Bool :=
  match cs.getLast? with
  | some c => c == '/'
  | none => false

/-- Lines 76–83 of the handler: complete a pathname that ends in `/` with
`index.html`, then join it onto `root` with `path.join`. -/
def resolveFilePath (root pathname0 : String) : String :=
  let pathname := if endsWithSep pathname0.toList then pathname0 ++ "index.html" else pathname0
  pathJoin root pathname

/-- Is `pre` an initial segment of `s`? -/
def leadsList : List Char → List Char → Bool
  | [], _ => true
  | _ :: _, [] => false
  | p :: ps, c :: cs => p == c && leadsList ps cs

/-- Is `p` the root itself or a path strictly inside the directory `root`?
Used to express that a resolved path escapes the served folder. -/
def underRoot (root p : String) : Bool :=
  p == root || leadsList (root.toList ++ ['/']) p.toList

/-- The three headers set unconditionally at the top of the handler. -/
def noCacheHeaders : List (String × String) :=
  [ ("Surrogate-Control", "no-store"),
    ("Cache-Control", "no-store, no-cache, must-revalidate, proxy-revalidate"),
    ("Expires", "0") ]

/-- A response body: the literal string of `res.end('Not Found')` or the
bytes of a successfully read file. -/
inductive Body where
  | text (s : String)
  | bytes (b : List Nat)
deriving DecidableEq, Repr

/-- An HTTP response as assembled by the handler: accumulated headers,
status code, body. -/
structure Response where
  headers : List (String × String)
  status : Nat
  body : Body
deriving DecidableEq, Repr

/-- An exception escaping the request handler. The only handler statement
that can throw is `decodeURIComponent` (line 76), which throws `URIError`
on malformed percent-encoding; nothing in the handler catches it. -/
inductive HandlerError where
  | uriError
deriving DecidableEq, Repr

/-- Result of one run of the request handler: either a response was written
to the client, or an exception escaped the handler (no response written). -/
inductive HandlerOutcome where
  | thrown (e : HandlerError)
  | response (r : Response)
deriving DecidableEq, Repr

/-- Outcome of `fs.readFile` for a given file path: an opaque error object
or the file bytes. -/
inductive ReadResult where
  | failure (e : Nat)
  | content (bytes : List Nat)
deriving DecidableEq, Repr

/-- The per-request handler (lines 65–116). `fsRead` is the outcome
`fs.readFile` delivers for each file path. -/
def handleRequest (root reqUrl : String) (fsRead : String → ReadResult) : HandlerOutcome :=
  match decodeURIComponent (urlPathname reqUrl) with
  | none => .thrown .uriError
  | some pn =>
    match fsRead (resolveFilePath root pn) with
    | .failure _ => .response ⟨noCacheHeaders, 404, .text "Not Found"⟩
    | .content data =>
      .response ⟨noCacheHeaders ++ [("Content-Type", contentTypeFor (resolveFilePath root pn))],
        200, .bytes data⟩

/-! ## Server lifecycle side: registry, serveFolder, stopServer, stopAllServers -/

/-- The parameters of a started server that the claims observe: the fields
`port`, `root` and the https choice of the `serverParams` object built at
lines 32–57 (the live-server leftovers `open`, `wait`, `watch`,
`middleware` are constants and carry no state). `https` in the source is
either `undefined` or the fixed configuration blob, so a `Bool` captures
it. -/
structure ServerParams where
  port : Nat
  root : String
  useHttps : Bool
deriving DecidableEq, Repr

/-- A network listener created by `http.createServer(...).listen(port)`:
identified by a creation stamp, and remembering the root and port it was
bound with. -/
structure Listener where
  lid : Nat
  root : String
  port : Nat
deriving DecidableEq, Repr

/-- One entry of `serversByWindow`: `{ serverParams, httpServer }`. -/
structure ServerRecord where
  serverParams : ServerParams
  httpServer : Listener
deriving DecidableEq, Repr

/-- The process-wide state: the `serversByWindow` map (association list from
window id to record), the set of currently-bound (listening) listeners
tagged by the window that started them, and a stamp supply for fresh
listeners. Window ids are opaque equality-comparable keys, modelled as
`Nat`. -/
structure WorldState where
  registry : List (Nat × ServerRecord)
  live : List (Nat × Listener)
  nextLid : Nat
deriving DecidableEq, Repr

/-- `serversByWindow.get(windowId)`. -/
def lookupReg : List (Nat × ServerRecord) → Nat → Option ServerRecord
  | [], _ => none
  | (k, v) :: t, wid => if k = wid then some v else lookupReg t wid

/-- `serversByWindow.set(windowId, rec)`: replace in place, or append. -/
def setReg : List (Nat × ServerRecord) → Nat → ServerRecord → List (Nat × ServerRecord)
  | [], wid, rec => [(wid, rec)]
  | (k, v) :: t, wid, rec =>
    if k = wid then (wid, rec) :: t else (k, v) :: setReg t wid rec

/-- `serversByWindow.delete(windowId)`. -/
def delReg : List (Nat × ServerRecord) → Nat → List (Nat × ServerRecord)
  | [], _ => []
  | (k, v) :: t, wid => if k = wid then delReg t wid else (k, v) :: delReg t wid

/-- Effect of `httpServer.close()` on the set of bound listeners: the given
listener of the given window stops listening. Errors thrown by `close` are
caught and logged by every caller in the source, so closing has no other
observable effect here. -/
def closeFromLive (live : List (Nat × Listener)) (wid : Nat) (l : Listener) :
    List (Nat × Listener) :=
  match live with
  | [] => []
  | q :: t =>
    if q.1 = wid ∧ q.2 = l then closeFromLive t wid l
    else q :: closeFromLive t wid l

/-- The outcomes the runtime delivers to the asynchronous steps of one
`serveFolder` call: the result of `getAvailablePort(2929, 4000)` (an
opaque error or a port), and whether `listen` reports a bind error to its
callback. -/
structure Oracle where
  portResult : Except Nat Nat
  bindError : Option Nat
deriving Repr

/-- What `serveFolder` delivered to its `onDone` callback. -/
inductive CallbackResult where
  | failure (e : Nat)
  | success (p : ServerParams)
deriving DecidableEq, Repr

/-- Observable result of one `serveFolder` call: the state after the call,
the callback invocation, whether the port finder returned a port, and
whether a new listener was successfully bound. -/
structure ServeStep where
  state : WorldState
  outcome : CallbackResult
  portAllocated : Bool
  listenerStarted : Bool
deriving DecidableEq, Repr

/-- The part of `serveFolder` from `getAvailablePort` on (lines 30–133),
after the fast path was rejected and any stale server was closed. -/
def serveFolderStart (root : String) (useHttps : Bool) (windowId : Nat) (o : Oracle)
    (st : WorldState) : ServeStep :=
  match o.portResult with
  | .error e => ⟨st, .failure e, false, false⟩
  | .ok port =>
    let serverParams : ServerParams := ⟨port, root, useHttps⟩
    match o.bindError with
    | some e => ⟨st, .failure e, true, false⟩
    | none =>
      let listener : Listener := ⟨st.nextLid, root, port⟩
      ⟨⟨setReg st.registry windowId ⟨serverParams, listener⟩,
        (windowId, listener) :: st.live,
        st.nextLid + 1⟩,
       .success serverParams, true, true⟩

/-- `serveFolder({root, useHttps, windowId}, onDone)` (lines 13–134):
fast path when a record for the window already serves the same root;
otherwise close any stale server for the window, then allocate a port and
bind a new listener. -/
def serveFolder (root : String) (useHttps : Bool) (windowId : Nat) (o : Oracle)
    (st : WorldState) : ServeStep :=
  match lookupReg st.registry windowId with
  | some existingServer =>
    if existingServer.serverParams.root = root then
      ⟨st, .success existingServer.serverParams, false, false⟩
    else
      serveFolderStart root useHttps windowId o
        { st with live := closeFromLive st.live windowId existingServer.httpServer }
  | none => serveFolderStart root useHttps windowId o st

/-- A sequence of `serveFolder` calls with the same `root` and `windowId`
(each call may choose its own `useHttps` and gets its own oracle); returns
the final state and the steps in call order. -/
def runServe (root : String) (windowId : Nat) :
    List (Bool × Oracle) → WorldState → WorldState × List ServeStep
  | [], st => (st, [])
  | c :: rest, st =>
    ((runServe root windowId rest (serveFolder root c.1 windowId c.2 st).state).1,
     serveFolder root c.1 windowId c.2 st ::
       (runServe root windowId rest (serveFolder root c.1 windowId c.2 st).state).2)

/-- `stopServer(windowId, onDone)` (lines 139–150). `closeErr` is the error
(if any) the runtime passes to the `close` callback. When a record exists,
its listener is closed and the record is deleted on close completion,
success or error alike; otherwise the delete is a no-op and the callback is
invoked with no error. -/
def stopServer (windowId : Nat) (closeErr : Option Nat) (st : WorldState) :
    WorldState × Option Nat :=
  match lookupReg st.registry windowId with
  | some server =>
    (⟨delReg st.registry windowId,
      closeFromLive st.live windowId server.httpServer,
      st.nextLid⟩,
     closeErr)
  | none =>
    (⟨delReg st.registry windowId, st.live, st.nextLid⟩, none)

/-- `stopAllServers()` (lines 155–174): for every registry entry whose
listener is still listening, force-close it (errors swallowed by the
try/catch), then clear the registry. A listener stops listening exactly
when it is live and referenced by the registry record of its window. -/
def stopAllLive (registry : List (Nat × ServerRecord)) :
    List (Nat × Listener) → List (Nat × Listener)
  | [] => []
  | q :: t =>
    match lookupReg registry q.1 with
    | some server =>
      if server.httpServer = q.2 then stopAllLive registry t
      else q :: stopAllLive registry t
    | none => q :: stopAllLive registry t

/-- `stopAllServers()` as a total state transformer: it never throws, and
always finishes by `serversByWindow.clear()`. -/
def stopAllServers (st : WorldState) : WorldState :=
  ⟨[], stopAllLive st.registry st.live, st.nextLid⟩

/-! ## Theorems about the request handler -/

/-- Helper: case analysis on the handler for a decodable request path. -/
theorem handleRequest_of_decode (root reqUrl : String) (fsRead : String → ReadResult)
    (pn : String) (hdec : decodeURIComponent (urlPathname reqUrl) = some pn) :
    handleRequest root reqUrl fsRead =
      match fsRead (resolveFilePath root pn) with
      | .failure _ => .response ⟨noCacheHeaders, 404, .text "Not Found"⟩
      | .content data =>
        .response ⟨noCacheHeaders ++ [("Content-Type", contentTypeFor (resolveFilePath root pn))],
          200, .bytes data⟩ := by
  unfold handleRequest
  rw [hdec]

/-- C2: every response produced by the request handler — whether the 200
success response or the 404 error response, for any request path — carries
the three no-cache headers `Surrogate-Control: no-store`,
`Cache-Control: no-store, no-cache, must-revalidate, proxy-revalidate` and
`Expires: 0`, set unconditionally at the top of the handler. -/
theorem response_noCache_headers (root reqUrl : String) (fsRead : String → ReadResult)
    (r : Response) (h : handleRequest root reqUrl fsRead = .response r) :
    ("Surrogate-Control", "no-store") ∈ r.headers ∧
    ("Cache-Control", "no-store, no-cache, must-revalidate, proxy-revalidate") ∈ r.headers ∧
    ("Expires", "0") ∈ r.headers := by
  rcases hdec : decodeURIComponent (urlPathname reqUrl) with _ | pn
  · unfold handleRequest at h
    rw [hdec] at h
    simp at h
  · rw [handleRequest_of_decode root reqUrl fsRead pn hdec] at h
    rcases hread : fsRead (resolveFilePath root pn) with e | data <;> rw [hread] at h <;>
      simp only [HandlerOutcome.response.injEq] at h <;> subst h <;>
      simp [noCacheHeaders]

/-- Witness for C2 at a concrete request. -/
theorem response_noCache_headers_witness :
    ("Surrogate-Control", "no-store") ∈
      (Response.mk (noCacheHeaders ++ [("Content-Type", "text/html")]) 200 (.bytes [104])).headers ∧
    ("Cache-Control", "no-store, no-cache, must-revalidate, proxy-revalidate") ∈
      (Response.mk (noCacheHeaders ++ [("Content-Type", "text/html")]) 200 (.bytes [104])).headers ∧
    ("Expires", "0") ∈
      (Response.mk (noCacheHeaders ++ [("Content-Type", "text/html")]) 200 (.bytes [104])).headers :=
  response_noCache_headers "/tmp/site" "/" (fun _ => .content [104]) _ (by decide)

/-- C3 counterexample: the claim that no per-request error ever escapes the
request handler is false. The request path `/%` has malformed
percent-encoding, so `decodeURIComponent` (line 76) throws a `URIError`;
nothing in the handler catches it, so no response (not even a 404) is
written and the exception escapes the handler. -/
theorem requestHandler_uriError_escape_cex :
    handleRequest "/tmp/site" "/%" (fun _ => .content []) = .thrown .uriError := by decide

/-- C3 as amended: for every request whose path percent-decodes
successfully, the handler always writes a response (no error escapes), and
any failure reading the resolved file yields exactly the 404 `Not Found`
response; only a malformed request path makes an exception
(`URIError` from `decodeURIComponent`) escape the handler. -/
theorem requestHandler_error_containment_amended (root reqUrl : String)
    (fsRead : String → ReadResult) (pn : String)
    (hdec : decodeURIComponent (urlPathname reqUrl) = some pn) :
    (∃ r, handleRequest root reqUrl fsRead = .response r) ∧
    (∀ e, fsRead (resolveFilePath root pn) = .failure e →
      handleRequest root reqUrl fsRead = .response ⟨noCacheHeaders, 404, .text "Not Found"⟩) := by
  rw [handleRequest_of_decode root reqUrl fsRead pn hdec]
  constructor
  · rcases fsRead (resolveFilePath root pn) with e | data
    · exact ⟨_, rfl⟩
    · exact ⟨_, rfl⟩
  · intro e he
    rw [he]

/-- Witness for the amended C3 at a concrete request with a failing read. -/
theorem requestHandler_error_containment_amended_witness :
    handleRequest "/tmp/site" "/missing.png" (fun _ => .failure 2) =
      .response ⟨noCacheHeaders, 404, .text "Not Found"⟩ :=
  (requestHandler_error_containment_amended "/tmp/site" "/missing.png"
      (fun _ => .failure 2) "/missing.png" (by decide)).2 2 (by decide)

/-- C6: whatever the cause of the read failure (the opaque error code `e`
covers missing file, permission error, any other I/O error), the handler
responds 404 with body `Not Found`; and this is the only error response
path: every response is either that 404 or a 200. -/
theorem read_failure_uniform_404 (root reqUrl : String) (fsRead : String → ReadResult)
    (pn : String) (hdec : decodeURIComponent (urlPathname reqUrl) = some pn) :
    (∀ e, fsRead (resolveFilePath root pn) = .failure e →
      handleRequest root reqUrl fsRead = .response ⟨noCacheHeaders, 404, .text "Not Found"⟩) ∧
    (∀ r, handleRequest root reqUrl fsRead = .response r →
      r.status = 200 ∨ (r.status = 404 ∧ r.body = .text "Not Found")) := by
  rw [handleRequest_of_decode root reqUrl fsRead pn hdec]
  constructor
  · intro e he
    rw [he]
  · intro r hr
    rcases hread : fsRead (resolveFilePath root pn) with e | data <;> rw [hread] at hr <;>
      simp only [HandlerOutcome.response.injEq] at hr <;> subst hr
    · exact Or.inr ⟨rfl, rfl⟩
    · exact Or.inl rfl

/-- Witness for C6 at a concrete request whose read fails with a
permission-style error code. -/
theorem read_failure_uniform_404_witness :
    handleRequest "/srv/files" "/protected.html" (fun _ => .failure 13) =
      .response ⟨noCacheHeaders, 404, .text "Not Found"⟩ :=
  (read_failure_uniform_404 "/srv/files" "/protected.html" (fun _ => .failure 13)
      "/protected.html" (by decide)).1 13 (by decide)

/-- C9: the served filesystem path is `path.join(root, decodedPath)` with
`index.html` appended when the decoded path ends in a separator; the join
performs no bound check against `root`, and a request path with traversal
segments resolves outside the root directory: `/../secret.txt` under root
`/tmp/site` resolves to `/tmp/secret.txt`, which is not under `/tmp/site`.
The final conjunct confirms the handler serves the bytes read at exactly
that joined path. -/
theorem resolve_path_join_traversal :
    (∀ root pn, endsWithSep pn.toList = false → resolveFilePath root pn = pathJoin root pn) ∧
    (∀ root pn, endsWithSep pn.toList = true →
      resolveFilePath root pn = pathJoin root (pn ++ "index.html")) ∧
    resolveFilePath "/tmp/site" "/../secret.txt" = "/tmp/secret.txt" ∧
    underRoot "/tmp/site" (resolveFilePath "/tmp/site" "/../secret.txt") = false ∧
    (∀ root reqUrl fsRead pn data,
      decodeURIComponent (urlPathname reqUrl) = some pn →
      fsRead (resolveFilePath root pn) = ReadResult.content data →
      handleRequest root reqUrl fsRead =
        .response ⟨noCacheHeaders ++ [("Content-Type", contentTypeFor (resolveFilePath root pn))],
          200, .bytes data⟩) := by
  refine ⟨?_, ?_, by decide, by decide, ?_⟩
  · intro root pn h
    unfold resolveFilePath
    rw [h]
    simp
  · intro root pn h
    unfold resolveFilePath
    rw [h]
    simp
  · intro root reqUrl fsRead pn data hdec hread
    rw [handleRequest_of_decode root reqUrl fsRead pn hdec, hread]

/-- Witness for C9 instantiating the universally quantified conjuncts. -/
theorem resolve_path_join_traversal_witness :
    resolveFilePath "/tmp/site" "/game.js" = pathJoin "/tmp/site" "/game.js" ∧
    resolveFilePath "/tmp/site" "/sub/" = pathJoin "/tmp/site" ("/sub/" ++ "index.html") ∧
    handleRequest "/tmp/site" "/game.js" (fun _ => .content [42]) =
      .response ⟨noCacheHeaders ++
        [("Content-Type", contentTypeFor (resolveFilePath "/tmp/site" "/game.js"))],
        200, .bytes [42]⟩ :=
  ⟨resolve_path_join_traversal.1 "/tmp/site" "/game.js" (by decide),
   resolve_path_join_traversal.2.1 "/tmp/site" "/sub/" (by decide),
   resolve_path_join_traversal.2.2.2.2 "/tmp/site" "/game.js" (fun _ => .content [42])
     "/game.js" [42] (by decide) (by decide)⟩

/-- C10: the extension → MIME lookup is an exact, case-sensitive match of
`path.extname`'s result (leading dot included) against the fixed table;
whenever the lookup misses — in particular for non-lowercase variants such
as `.HTML` or `.Png` — the 200 response carries
`Content-Type: application/octet-stream`. -/
theorem content_type_case_sensitive :
    (∀ fp, assocLookup contentTypes (extname fp) = none →
      contentTypeFor fp = "application/octet-stream") ∧
    assocLookup contentTypes ".HTML" = none ∧
    assocLookup contentTypes ".Png" = none ∧
    contentTypeFor "/a/b.HTML" = "application/octet-stream" ∧
    contentTypeFor "/a/b.Png" = "application/octet-stream" ∧
    contentTypeFor "/a/b.html" = "text/html" ∧
    (∀ root reqUrl fsRead pn data r,
      decodeURIComponent (urlPathname reqUrl) = some pn →
      fsRead (resolveFilePath root pn) = ReadResult.content data →
      handleRequest root reqUrl fsRead = .response r →
      ("Content-Type", contentTypeFor (resolveFilePath root pn)) ∈ r.headers) := by
  refine ⟨?_, by decide, by decide, by decide, by decide, by decide, ?_⟩
  · intro fp h
    unfold contentTypeFor
    rw [h]
    rfl
  · intro root reqUrl fsRead pn data r hdec hread hresp
    rw [handleRequest_of_decode root reqUrl fsRead pn hdec, hread] at hresp
    simp only [HandlerOutcome.response.injEq] at hresp
    subst hresp
    simp [noCacheHeaders]

/-- Witness for C10: a request for `/a.HTML` is served as a generic binary
stream. -/
theorem content_type_case_sensitive_witness :
    contentTypeFor "/a.HTML" = "application/octet-stream" ∧
    ("Content-Type", contentTypeFor (resolveFilePath "/tmp/site" "/a.HTML")) ∈
      (Response.mk (noCacheHeaders ++ [("Content-Type", "application/octet-stream")]) 200
        (.bytes [7])).headers :=
  ⟨content_type_case_sensitive.1 "/a.HTML" (by decide),
   content_type_case_sensitive.2.2.2.2.2.2 "/tmp/site" "/a.HTML" (fun _ => .content [7])
     "/a.HTML" [7] _ (by decide) (by decide) (by decide)⟩

/-! ## Registry lemmas -/

theorem delReg_eq_of_lookup_none :
    ∀ (r : List (Nat × ServerRecord)) (wid : Nat), lookupReg r wid = none → delReg r wid = r
  | [], _, _ => rfl
  | (k, v) :: t, wid, h => by
    unfold lookupReg at h
    unfold delReg
    by_cases hk : k = wid
    · rw [if_pos hk] at h
      cases h
    · rw [if_neg hk] at h
      rw [if_neg hk, delReg_eq_of_lookup_none t wid h]

theorem lookupReg_delReg_self :
    ∀ (r : List (Nat × ServerRecord)) (wid : Nat), lookupReg (delReg r wid) wid = none
  | [], _ => rfl
  | (k, v) :: t, wid => by
    unfold delReg
    by_cases hk : k = wid
    · rw [if_pos hk]
      exact lookupReg_delReg_self t wid
    · rw [if_neg hk]
      unfold lookupReg
      rw [if_neg hk]
      exact lookupReg_delReg_self t wid

theorem lookupReg_setReg_self :
    ∀ (r : List (Nat × ServerRecord)) (wid : Nat) (rec : ServerRecord),
      lookupReg (setReg r wid rec) wid = some rec
  | [], wid, rec => by
    unfold setReg lookupReg
    rw [if_pos rfl]
  | (k, v) :: t, wid, rec => by
    unfold setReg
    by_cases hk : k = wid
    · rw [if_pos hk]
      unfold lookupReg
      rw [if_pos rfl]
    · rw [if_neg hk]
      unfold lookupReg
      rw [if_neg hk]
      exact lookupReg_setReg_self t wid rec

/-- A listener closed by `stopAllServers` is no longer bound: if the
registry maps `wid` to `rec`, then `(wid, rec.httpServer)` is not among the
listeners still live after the shutdown sweep. -/
theorem not_mem_stopAllLive (registry : List (Nat × ServerRecord)) (rec : ServerRecord)
    (wid : Nat) (h : lookupReg registry wid = some rec) :
    ∀ live : List (Nat × Listener), (wid, rec.httpServer) ∉ stopAllLive registry live
  | [] => by
    unfold stopAllLive
    exact List.not_mem_nil _
  | q :: t => by
    unfold stopAllLive
    rcases hq : lookupReg registry q.1 with _ | server
    · intro hmem
      rcases List.mem_cons.mp hmem with heq | hmem2
      · have h1 : q.1 = wid := by rw [← heq]
        rw [h1, h] at hq
        cases hq
      · exact not_mem_stopAllLive registry rec wid h t hmem2
    · dsimp only
      by_cases hsv : server.httpServer = q.2
      · rw [if_pos hsv]
        exact not_mem_stopAllLive registry rec wid h t
      · rw [if_neg hsv]
        intro hmem
        rcases List.mem_cons.mp hmem with heq | hmem2
        · have h1 : q.1 = wid := by rw [← heq]
          have h2 : q.2 = rec.httpServer := by rw [← heq]
          rw [h1, h] at hq
          cases hq
          exact hsv h2.symm
        · exact not_mem_stopAllLive registry rec wid h t hmem2

/-! ## Shared concrete scenario -/

/-- A concrete record: the server started for window 1 with root `/a` on
port 2929. -/
def demoRecord : ServerRecord := ⟨⟨2929, "/a", false⟩, ⟨0, "/a", 2929⟩⟩

/-- A concrete reachable state: exactly the state after
`serveFolder "/a" 1` succeeds on port 2929 from the empty state. -/
def demoState : WorldState := ⟨[(1, demoRecord)], [(1, demoRecord.httpServer)], 1⟩

/-! ## Theorems about the server lifecycle -/

/-- C5: when the port finder returns a port but the listener fails to bind
(for whatever bind-time cause, carried by the opaque error `e`), and the
call is not on the idempotent fast path (no existing record for the window
serves the same root), `serveFolder` delivers the bind error to the
caller's callback and `serversByWindow` is left exactly as it was. -/
theorem bind_failure_reports_error_registry_unchanged (root : String) (useHttps : Bool)
    (windowId : Nat) (port e : Nat) (st : WorldState)
    (hfast : ∀ rec, lookupReg st.registry windowId = some rec → rec.serverParams.root ≠ root) :
    (serveFolder root useHttps windowId ⟨.ok port, some e⟩ st).outcome = .failure e ∧
    (serveFolder root useHttps windowId ⟨.ok port, some e⟩ st).state.registry = st.registry := by
  unfold serveFolder
  rcases hl : lookupReg st.registry windowId with _ | rec
  · exact ⟨rfl, rfl⟩
  · dsimp only
    rw [if_neg (hfast rec hl)]
    exact ⟨rfl, rfl⟩

/-- Witness for C5: bind failure on a fresh window mutates nothing. -/
theorem bind_failure_reports_error_registry_unchanged_witness :
    (serveFolder "/a" false 1 ⟨.ok 2929, some 98⟩ ⟨[], [], 0⟩).outcome = .failure 98 ∧
    (serveFolder "/a" false 1 ⟨.ok 2929, some 98⟩ ⟨[], [], 0⟩).state.registry =
      (⟨[], [], 0⟩ : WorldState).registry :=
  bind_failure_reports_error_registry_unchanged "/a" false 1 2929 98 ⟨[], [], 0⟩
    (fun _ h => nomatch h)

/-- C7: `stopServer` postconditions. With no record for the window the call
is an error-free no-op (the `Map.delete` removes nothing and the callback
gets no error); with a record, after close completion the registry has no
entry for the window whatever the close outcome, and the close error (if
any) is reported to the caller. -/
theorem stopServer_postconditions (windowId : Nat) (closeErr : Option Nat) (st : WorldState) :
    (lookupReg st.registry windowId = none →
      stopServer windowId closeErr st = (st, none)) ∧
    (∀ rec, lookupReg st.registry windowId = some rec →
      lookupReg (stopServer windowId closeErr st).1.registry windowId = none ∧
      (stopServer windowId closeErr st).2 = closeErr) := by
  constructor
  · intro h
    unfold stopServer
    rw [h, delReg_eq_of_lookup_none st.registry windowId h]
  · intro rec h
    unfold stopServer
    rw [h]
    exact ⟨lookupReg_delReg_self st.registry windowId, rfl⟩

/-- Witness for C7: a no-op stop on window 2, and a stop with a close error
on window 1, both on the concrete state. -/
theorem stopServer_postconditions_witness :
    stopServer 2 none demoState = (demoState, none) ∧
    (lookupReg (stopServer 1 (some 5) demoState).1.registry 1 = none ∧
      (stopServer 1 (some 5) demoState).2 = some 5) :=
  ⟨(stopServer_postconditions 2 none demoState).1 (by decide),
   (stopServer_postconditions 1 (some 5) demoState).2 demoRecord (by decide)⟩

/-- C8: `stopAllServers` is a total function of the state (the source
swallows every close error in a try/catch, so it never throws), it always
finishes by clearing the whole registry, and every listener referenced by a
registry record — the listeners it attempts to close — is no longer bound
afterwards, regardless of individual close outcomes. -/
theorem stopAllServers_clears_registry (st : WorldState) :
    (stopAllServers st).registry = [] ∧
    ∀ windowId rec, lookupReg st.registry windowId = some rec →
      (windowId, rec.httpServer) ∉ (stopAllServers st).live := by
  refine ⟨rfl, ?_⟩
  intro wid rec h
  exact not_mem_stopAllLive st.registry rec wid h st.live

/-- Witness for C8 on the concrete one-server state. -/
theorem stopAllServers_clears_registry_witness :
    (stopAllServers demoState).registry = [] ∧
    (1, demoRecord.httpServer) ∉ (stopAllServers demoState).live :=
  ⟨(stopAllServers_clears_registry demoState).1,
   (stopAllServers_clears_registry demoState).2 1 demoRecord (by decide)⟩

/-- The idempotent fast path (lines 15–19): when the window already has a
record for the requested root, `serveFolder` returns the recorded params to
the callback, touches nothing, allocates no port and starts no listener,
whatever the oracle and the requested `useHttps`. -/
theorem serveFolder_fast_path (root : String) (useHttps : Bool) (windowId : Nat) (o : Oracle)
    (st : WorldState) (rec : ServerRecord) (hl : lookupReg st.registry windowId = some rec)
    (hroot : rec.serverParams.root = root) :
    serveFolder root useHttps windowId o st = ⟨st, .success rec.serverParams, false, false⟩ := by
  unfold serveFolder
  rw [hl]
  dsimp only
  rw [if_pos hroot]

/-- A successful `serveFolderStart` leaves a record for the window whose
params are the returned ones, serving the requested root. -/
theorem serveFolderStart_ok_lookup (root : String) (useHttps : Bool) (windowId : Nat)
    (o : Oracle) (st : WorldState) (p : ServerParams)
    (h : (serveFolderStart root useHttps windowId o st).outcome = .success p) :
    ∃ rec, lookupReg (serveFolderStart root useHttps windowId o st).state.registry windowId =
        some rec ∧ rec.serverParams = p ∧ p.root = root := by
  obtain ⟨pr, be⟩ := o
  rcases pr with e | port
  · exact absurd h (by simp [serveFolderStart])
  · rcases be with _ | e
    · have h2 : ServerParams.mk port root useHttps = p := by
        injection h
      subst h2
      exact ⟨_, lookupReg_setReg_self st.registry windowId _, rfl, rfl⟩
    · exact absurd h (by simp [serveFolderStart])

/-- A successful `serveFolder` call (fast path or fresh bind alike) leaves a
record for the window whose params are the returned ones, serving the
requested root. -/
theorem serveFolder_ok_lookup (root : String) (useHttps : Bool) (windowId : Nat)
    (o : Oracle) (st : WorldState) (p : ServerParams)
    (h : (serveFolder root useHttps windowId o st).outcome = .success p) :
    ∃ rec, lookupReg (serveFolder root useHttps windowId o st).state.registry windowId =
        some rec ∧ rec.serverParams = p ∧ p.root = root := by
  unfold serveFolder at h ⊢
  rcases hl : lookupReg st.registry windowId with _ | rec <;> rw [hl] at h
  · exact serveFolderStart_ok_lookup root useHttps windowId o st p h
  · dsimp only at h ⊢
    by_cases hroot : rec.serverParams.root = root
    · rw [if_pos hroot] at h ⊢
      have h2 : rec.serverParams = p := by
        injection h
      subst h2
      exact ⟨rec, hl, rfl, hroot⟩
    · rw [if_neg hroot] at h ⊢
      exact serveFolderStart_ok_lookup root useHttps windowId o _ p h

/-- C1: `serveFolder` is idempotent per `(windowId, root)`. After any
successful call (which returned `p`), every subsequent `serveFolder` call
for the same window and the same root — whatever its oracle and `useHttps`
flag — takes the fast path: it returns exactly the same params `p`,
allocates no port, starts no listener, and leaves the state untouched. -/
theorem serveFolder_idempotent_per_window_root (root : String) (useHttps : Bool)
    (windowId : Nat) (o : Oracle) (st : WorldState) (p : ServerParams)
    (h : (serveFolder root useHttps windowId o st).outcome = .success p) :
    ∀ calls : List (Bool × Oracle),
      (runServe root windowId calls (serveFolder root useHttps windowId o st).state).1 =
        (serveFolder root useHttps windowId o st).state ∧
      ∀ s ∈ (runServe root windowId calls (serveFolder root useHttps windowId o st).state).2,
        s = ⟨(serveFolder root useHttps windowId o st).state, .success p, false, false⟩ := by
  obtain ⟨rec, hlook, hparams, hroot⟩ := serveFolder_ok_lookup root useHttps windowId o st p h
  have hrootrec : rec.serverParams.root = root := by rw [hparams, hroot]
  have hfast : ∀ (u : Bool) (o2 : Oracle),
      serveFolder root u windowId o2 (serveFolder root useHttps windowId o st).state =
        ⟨(serveFolder root useHttps windowId o st).state, .success p, false, false⟩ := by
    intro u o2
    rw [serveFolder_fast_path root u windowId o2 _ rec hlook hrootrec, hparams]
  intro calls
  induction calls with
  | nil => exact ⟨rfl, fun s hs => absurd hs (List.not_mem_nil s)⟩
  | cons c rest ih =>
    unfold runServe
    rw [hfast c.1 c.2]
    refine ⟨ih.1, ?_⟩
    intro s hs
    rcases List.mem_cons.mp hs with heq | hs2
    · exact heq
    · exact ih.2 s hs2

/-- Witness for C1: a successful first call on port 2929, followed by two
calls whose oracles would fail (port exhaustion, bind error) if they were
consulted — they are not: both take the fast path. -/
theorem serveFolder_idempotent_per_window_root_witness :
    (runServe "/a" 1 [(false, ⟨.error 5, none⟩), (true, ⟨.ok 3000, some 4⟩)]
        (serveFolder "/a" false 1 ⟨.ok 2929, none⟩ ⟨[], [], 0⟩).state).1 =
      (serveFolder "/a" false 1 ⟨.ok 2929, none⟩ ⟨[], [], 0⟩).state ∧
    ∀ s ∈ (runServe "/a" 1 [(false, ⟨.error 5, none⟩), (true, ⟨.ok 3000, some 4⟩)]
        (serveFolder "/a" false 1 ⟨.ok 2929, none⟩ ⟨[], [], 0⟩).state).2,
      s = ⟨(serveFolder "/a" false 1 ⟨.ok 2929, none⟩ ⟨[], [], 0⟩).state,
        .success ⟨2929, "/a", false⟩, false, false⟩ :=
  serveFolder_idempotent_per_window_root "/a" false 1 ⟨.ok 2929, none⟩ ⟨[], [], 0⟩
    ⟨2929, "/a", false⟩ (by decide) [(false, ⟨.error 5, none⟩), (true, ⟨.ok 3000, some 4⟩)]

/-! ## The registry invariant -/

/-- Keys of an association list are pairwise distinct. On `live` this says:
at most one live listener per window id. -/
abbrev keysNodup {α : Type} (l : List (Nat × α)) : Prop :=
  (l.map Prod.fst).Nodup

/-- Every registry record is bound to a live listener of its window, and
that listener was created for exactly the record's `params.root`. -/
abbrev recordsLive (st : WorldState) : Prop :=
  ∀ p ∈ st.registry,
    (p.1, p.2.httpServer) ∈ st.live ∧ p.2.httpServer.root = p.2.serverParams.root

/-- Every live listener is the `httpServer` of the registry record of its
window. -/
abbrev liveOwned (st : WorldState) : Prop :=
  ∀ q ∈ st.live, ∃ p, p ∈ st.registry ∧ p.1 = q.1 ∧ p.2.httpServer = q.2

/-- The invariant exactly as claimed: at most one live listener per window
id, and every record's `params.root` matches the root of the
currently-bound listener for that window. -/
abbrev claimInv (st : WorldState) : Prop :=
  keysNodup st.live ∧ recordsLive st

/-- The strengthened (inductive) registry invariant: registry keys unique,
at most one live listener per window id, records bound to live listeners
with matching roots, and live listeners all owned by registry records. -/
abbrev registryInv (st : WorldState) : Prop :=
  keysNodup st.registry ∧ keysNodup st.live ∧ recordsLive st ∧ liveOwned st

/-! ## Association-list lemmas -/

theorem closeFromLive_sublist (live : List (Nat × Listener)) (wid : Nat) (l : Listener) :
    List.Sublist (closeFromLive live wid l) live := by
  induction live with
  | nil => exact List.nil_sublist []
  | cons a t ih =>
    unfold closeFromLive
    by_cases ha : a.1 = wid ∧ a.2 = l
    · rw [if_pos ha]
      exact ih.cons a
    · rw [if_neg ha]
      exact ih.cons₂ a

theorem mem_closeFromLive {live : List (Nat × Listener)} {wid : Nat} {l : Listener}
    {q : Nat × Listener} :
    q ∈ closeFromLive live wid l ↔ q ∈ live ∧ ¬(q.1 = wid ∧ q.2 = l) := by
  induction live with
  | nil => simp [closeFromLive]
  | cons a t ih =>
    unfold closeFromLive
    by_cases ha : a.1 = wid ∧ a.2 = l
    · rw [if_pos ha, ih]
      constructor
      · rintro ⟨hq, hn⟩
        exact ⟨List.mem_cons_of_mem a hq, hn⟩
      · rintro ⟨hq, hn⟩
        rcases List.mem_cons.mp hq with rfl | hq2
        · exact absurd ha hn
        · exact ⟨hq2, hn⟩
    · rw [if_neg ha]
      constructor
      · intro hq
        rcases List.mem_cons.mp hq with rfl | hq2
        · exact ⟨List.mem_cons_self _ _, ha⟩
        · obtain ⟨h1, h2⟩ := ih.mp hq2
          exact ⟨List.mem_cons_of_mem a h1, h2⟩
      · rintro ⟨hq, hn⟩
        rcases List.mem_cons.mp hq with rfl | hq2
        · exact List.mem_cons_self _ _
        · exact List.mem_cons_of_mem a (ih.mpr ⟨hq2, hn⟩)

theorem delReg_sublist (r : List (Nat × ServerRecord)) (wid : Nat) :
    List.Sublist (delReg r wid) r := by
  induction r with
  | nil => exact List.nil_sublist []
  | cons a t ih =>
    obtain ⟨k, v⟩ := a
    unfold delReg
    by_cases hk : k = wid
    · rw [if_pos hk]
      exact ih.cons (k, v)
    · rw [if_neg hk]
      exact ih.cons₂ (k, v)

theorem mem_delReg {r : List (Nat × ServerRecord)} {wid : Nat} {p : Nat × ServerRecord} :
    p ∈ delReg r wid ↔ p ∈ r ∧ p.1 ≠ wid := by
  induction r with
  | nil => simp [delReg]
  | cons a t ih =>
    obtain ⟨k, v⟩ := a
    unfold delReg
    by_cases hk : k = wid
    · rw [if_pos hk, ih]
      constructor
      · rintro ⟨hp, hn⟩
        exact ⟨List.mem_cons_of_mem (k, v) hp, hn⟩
      · rintro ⟨hp, hn⟩
        rcases List.mem_cons.mp hp with rfl | hp2
        · exact absurd hk hn
        · exact ⟨hp2, hn⟩
    · rw [if_neg hk]
      constructor
      · intro hp
        rcases List.mem_cons.mp hp with rfl | hp2
        · exact ⟨List.mem_cons_self (k, v) t, hk⟩
        · obtain ⟨h1, h2⟩ := ih.mp hp2
          exact ⟨List.mem_cons_of_mem (k, v) h1, h2⟩
      · rintro ⟨hp, hn⟩
        rcases List.mem_cons.mp hp with rfl | hp2
        · exact List.mem_cons_self _ _
        · exact List.mem_cons_of_mem (k, v) (ih.mpr ⟨hp2, hn⟩)

theorem stopAllLive_sublist (reg : List (Nat × ServerRecord)) (live : List (Nat × Listener)) :
    List.Sublist (stopAllLive reg live) live := by
  induction live with
  | nil => exact List.nil_sublist []
  | cons q t ih =>
    unfold stopAllLive
    rcases lookupReg reg q.1 with _ | server
    · exact ih.cons₂ q
    · dsimp only
      by_cases hsv : server.httpServer = q.2
      · rw [if_pos hsv]
        exact ih.cons q
      · rw [if_neg hsv]
        exact ih.cons₂ q

theorem lookupReg_mem : ∀ {r : List (Nat × ServerRecord)} {wid : Nat} {rec : ServerRecord},
    lookupReg r wid = some rec → (wid, rec) ∈ r := by
  intro r
  induction r with
  | nil => intro wid rec h; cases h
  | cons a t ih =>
    obtain ⟨k, v⟩ := a
    intro wid rec h
    unfold lookupReg at h
    by_cases hk : k = wid
    · rw [if_pos hk] at h
      cases h
      subst hk
      exact List.mem_cons_self (k, v) t
    · rw [if_neg hk] at h
      exact List.mem_cons_of_mem (k, v) (ih h)

theorem keysNodup_cons {α : Type} {k : Nat} {v : α} {t : List (Nat × α)}
    (h : keysNodup ((k, v) :: t)) : k ∉ t.map Prod.fst ∧ keysNodup t := by
  rw [keysNodup, List.map_cons, List.nodup_cons] at h
  exact h

theorem lookupReg_eq_of_mem_nodup :
    ∀ {r : List (Nat × ServerRecord)}, keysNodup r →
      ∀ {p : Nat × ServerRecord}, p ∈ r → lookupReg r p.1 = some p.2 := by
  intro r
  induction r with
  | nil => intro _ p hp; cases hp
  | cons a t ih =>
    obtain ⟨k, v⟩ := a
    intro hn p hp
    obtain ⟨hk, hnt⟩ := keysNodup_cons hn
    rcases List.mem_cons.mp hp with rfl | hp2
    · unfold lookupReg
      rw [if_pos rfl]
    · unfold lookupReg
      by_cases hkp : k = p.1
      · exfalso
        apply hk
        rw [hkp]
        exact List.mem_map_of_mem Prod.fst hp2
      · rw [if_neg hkp]
        exact ih hnt hp2

theorem ne_of_lookupReg_none :
    ∀ {r : List (Nat × ServerRecord)} {wid : Nat}, lookupReg r wid = none →
      ∀ {p : Nat × ServerRecord}, p ∈ r → p.1 ≠ wid := by
  intro r
  induction r with
  | nil => intro wid _ p hp; cases hp
  | cons a t ih =>
    obtain ⟨k, v⟩ := a
    intro wid h p hp
    unfold lookupReg at h
    by_cases hk : k = wid
    · rw [if_pos hk] at h
      cases h
    · rw [if_neg hk] at h
      rcases List.mem_cons.mp hp with rfl | hp2
      · exact hk
      · exact ih h hp2

theorem mem_setReg_self : ∀ (r : List (Nat × ServerRecord)) (wid : Nat) (rec : ServerRecord),
    (wid, rec) ∈ setReg r wid rec := by
  intro r
  induction r with
  | nil => intro wid rec; exact List.mem_cons_self (wid, rec) []
  | cons a t ih =>
    obtain ⟨k, v⟩ := a
    intro wid rec
    unfold setReg
    by_cases hk : k = wid
    · rw [if_pos hk]
      exact List.mem_cons_self (wid, rec) t
    · rw [if_neg hk]
      exact List.mem_cons_of_mem (k, v) (ih wid rec)

theorem mem_setReg_of_ne {r : List (Nat × ServerRecord)} {p : Nat × ServerRecord}
    {wid : Nat} {rec : ServerRecord} (hp : p ∈ r) (hne : p.1 ≠ wid) :
    p ∈ setReg r wid rec := by
  induction r with
  | nil => cases hp
  | cons a t ih =>
    obtain ⟨k, v⟩ := a
    unfold setReg
    by_cases hk : k = wid
    · rw [if_pos hk]
      rcases List.mem_cons.mp hp with rfl | hp2
      · exact absurd hk hne
      · exact List.mem_cons_of_mem (wid, rec) hp2
    · rw [if_neg hk]
      rcases List.mem_cons.mp hp with rfl | hp2
      · exact List.mem_cons_self _ _
      · exact List.mem_cons_of_mem (k, v) (ih hp2)

theorem mem_setReg_elim :
    ∀ {r : List (Nat × ServerRecord)}, keysNodup r →
      ∀ {p : Nat × ServerRecord} {wid : Nat} {rec : ServerRecord},
        p ∈ setReg r wid rec → p = (wid, rec) ∨ (p ∈ r ∧ p.1 ≠ wid) := by
  intro r
  induction r with
  | nil =>
    intro _ p wid rec hp
    unfold setReg at hp
    rcases List.mem_cons.mp hp with rfl | hp2
    · exact Or.inl rfl
    · cases hp2
  | cons a t ih =>
    obtain ⟨k, v⟩ := a
    intro hn p wid rec hp
    obtain ⟨hk, hnt⟩ := keysNodup_cons hn
    unfold setReg at hp
    by_cases hkw : k = wid
    · rw [if_pos hkw] at hp
      rcases List.mem_cons.mp hp with rfl | hp2
      · exact Or.inl rfl
      · refine Or.inr ⟨List.mem_cons_of_mem (k, v) hp2, ?_⟩
        intro hpw
        apply hk
        rw [hkw, ← hpw]
        exact List.mem_map_of_mem Prod.fst hp2
    · rw [if_neg hkw] at hp
      rcases List.mem_cons.mp hp with rfl | hp2
      · exact Or.inr ⟨List.mem_cons_self (k, v) t, hkw⟩
      · rcases ih hnt hp2 with h1 | ⟨h2, h3⟩
        · exact Or.inl h1
        · exact Or.inr ⟨List.mem_cons_of_mem (k, v) h2, h3⟩

theorem keys_setReg_sub :
    ∀ {r : List (Nat × ServerRecord)} {wid x : Nat} {rec : ServerRecord},
      x ∈ (setReg r wid rec).map Prod.fst → x ∈ r.map Prod.fst ∨ x = wid := by
  intro r
  induction r with
  | nil =>
    intro wid x rec hx
    unfold setReg at hx
    rcases List.mem_cons.mp hx with rfl | hx2
    · exact Or.inr rfl
    · cases hx2
  | cons a t ih =>
    obtain ⟨k, v⟩ := a
    intro wid x rec hx
    unfold setReg at hx
    by_cases hkw : k = wid
    · rw [if_pos hkw] at hx
      rcases List.mem_cons.mp hx with rfl | hx2
      · exact Or.inr rfl
      · exact Or.inl (List.mem_cons_of_mem k hx2)
    · rw [if_neg hkw] at hx
      rcases List.mem_cons.mp hx with rfl | hx2
      · exact Or.inl (List.mem_cons_self x (t.map Prod.fst))
      · rcases ih hx2 with h1 | h2
        · exact Or.inl (List.mem_cons_of_mem k h1)
        · exact Or.inr h2

theorem keysNodup_setReg :
    ∀ {r : List (Nat × ServerRecord)}, keysNodup r →
      ∀ {wid : Nat} {rec : ServerRecord}, keysNodup (setReg r wid rec) := by
  intro r
  induction r with
  | nil =>
    intro _ wid rec
    unfold setReg
    exact List.nodup_singleton wid
  | cons a t ih =>
    obtain ⟨k, v⟩ := a
    intro hn wid rec
    obtain ⟨hk, hnt⟩ := keysNodup_cons hn
    unfold setReg
    by_cases hkw : k = wid
    · rw [if_pos hkw]
      rw [keysNodup, List.map_cons, List.nodup_cons]
      subst hkw
      exact ⟨hk, hnt⟩
    · rw [if_neg hkw]
      rw [keysNodup, List.map_cons, List.nodup_cons]
      refine ⟨?_, ih hnt⟩
      intro hmem
      rcases keys_setReg_sub hmem with h1 | h2
      · exact hk h1
      · exact hkw h2

/-- Nodup keys pass to sublists. -/
theorem keysNodup_sub {α : Type} {l1 l2 : List (Nat × α)} (hs : List.Sublist l1 l2)
    (h : keysNodup l2) : keysNodup l1 :=
  List.Nodup.sublist (hs.map Prod.fst) h

/-- `stopServer` preserves the registry invariant. -/
theorem registryInv_stopServer (windowId : Nat) (closeErr : Option Nat) (st : WorldState)
    (h : registryInv st) : registryInv (stopServer windowId closeErr st).1 := by
  obtain ⟨hrn, hln, hrl, hlo⟩ := h
  unfold stopServer
  rcases hl : lookupReg st.registry windowId with _ | server
  · dsimp only
    refine ⟨keysNodup_sub (delReg_sublist st.registry windowId) hrn, hln, ?_, ?_⟩
    · intro p hp
      exact hrl p (mem_delReg.mp hp).1
    · intro q hq
      obtain ⟨p, hpm, hp1, hp2⟩ := hlo q hq
      exact ⟨p, mem_delReg.mpr ⟨hpm, ne_of_lookupReg_none hl hpm⟩, hp1, hp2⟩
  · dsimp only
    refine ⟨keysNodup_sub (delReg_sublist st.registry windowId) hrn,
      keysNodup_sub (closeFromLive_sublist st.live windowId server.httpServer) hln, ?_, ?_⟩
    · intro p hp
      obtain ⟨hpm, hpne⟩ := mem_delReg.mp hp
      obtain ⟨hlive, hroot⟩ := hrl p hpm
      refine ⟨mem_closeFromLive.mpr ⟨hlive, ?_⟩, hroot⟩
      rintro ⟨h1, _⟩
      exact hpne h1
    · intro q hq
      obtain ⟨hql, hqn⟩ := mem_closeFromLive.mp hq
      obtain ⟨p, hpm, hp1, hp2⟩ := hlo q hql
      have hpne : p.1 ≠ windowId := by
        intro hpw
        have hlp : lookupReg st.registry p.1 = some p.2 := lookupReg_eq_of_mem_nodup hrn hpm
        rw [hpw, hl] at hlp
        apply hqn
        refine ⟨by rw [← hp1, hpw], ?_⟩
        rw [← hp2, Option.some.inj hlp]
      exact ⟨p, mem_delReg.mpr ⟨hpm, hpne⟩, hp1, hp2⟩

/-- `stopAllServers` preserves the registry invariant: with the registry
cleared and (under the invariant) every live listener closed, all four
components hold. -/
theorem registryInv_stopAllServers (st : WorldState) (h : registryInv st) :
    registryInv (stopAllServers st) := by
  obtain ⟨hrn, hln, hrl, hlo⟩ := h
  refine ⟨List.nodup_nil, keysNodup_sub (stopAllLive_sublist st.registry st.live) hln,
    ?_, ?_⟩
  · intro p hp
    cases hp
  · intro q hq
    exfalso
    have hql : q ∈ st.live := (stopAllLive_sublist st.registry st.live).subset hq
    obtain ⟨p, hpm, hp1, hp2⟩ := hlo q hql
    have hlook : lookupReg st.registry p.1 = some p.2 := lookupReg_eq_of_mem_nodup hrn hpm
    apply not_mem_stopAllLive st.registry p.2 p.1 hlook st.live
    have hq' : (p.1, p.2.httpServer) = q := by
      rw [hp1, hp2]
    rw [hq']
    exact hq

/-- Core step: after a successful bind for `windowId`, with the previous
listeners of `windowId` (if any) gone from `live'` and everything else
intact, the registry invariant holds for the new state. -/
theorem registryInv_after_bind (reg : List (Nat × ServerRecord))
    (live2 : List (Nat × Listener)) (nid windowId : Nat) (root : String)
    (useHttps : Bool) (port : Nat)
    (hrn : keysNodup reg)
    (hln2 : keysNodup live2)
    (hkeep : ∀ p, p ∈ reg → p.1 ≠ windowId → (p.1, p.2.httpServer) ∈ live2)
    (hroot : ∀ p, p ∈ reg → p.2.httpServer.root = p.2.serverParams.root)
    (hnotin : ∀ l, (windowId, l) ∉ live2)
    (hlo2 : ∀ q, q ∈ live2 → ∃ p, p ∈ reg ∧ p.1 = q.1 ∧ p.2.httpServer = q.2) :
    registryInv ⟨setReg reg windowId ⟨⟨port, root, useHttps⟩, ⟨nid, root, port⟩⟩,
      (windowId, ⟨nid, root, port⟩) :: live2, nid + 1⟩ := by
  refine ⟨keysNodup_setReg hrn, ?_, ?_, ?_⟩
  · rw [keysNodup, List.map_cons, List.nodup_cons]
    refine ⟨?_, hln2⟩
    intro hmem
    obtain ⟨q, hq, hq1⟩ := List.mem_map.mp hmem
    apply hnotin q.2
    have hq1w : q.1 = windowId := hq1
    have hqe : (windowId, q.2) = q := by
      rw [← hq1w]
    rw [hqe]
    exact hq
  · intro p hp
    rcases mem_setReg_elim hrn hp with rfl | ⟨hpm, hpne⟩
    · exact ⟨List.mem_cons_self _ _, rfl⟩
    · exact ⟨List.mem_cons_of_mem _ (hkeep p hpm hpne), hroot p hpm⟩
  · intro q hq
    rcases List.mem_cons.mp hq with rfl | hq2
    · exact ⟨(windowId, ⟨⟨port, root, useHttps⟩, ⟨nid, root, port⟩⟩),
        mem_setReg_self reg windowId _, rfl, rfl⟩
    · obtain ⟨p, hpm, hp1, hp2⟩ := hlo2 q hq2
      have hpne : p.1 ≠ windowId := by
        intro hpw
        apply hnotin q.2
        have hqe : (windowId, q.2) = q := by
          rw [← hpw, hp1]
        rw [hqe]
        exact hq2
      exact ⟨p, mem_setReg_of_ne hpm hpne, hp1, hp2⟩

/-- A `serveFolder` start for a window with no registry record preserves
the registry invariant, whatever the oracle outcome. -/
theorem registryInv_serveFolderStart_fresh (root : String) (useHttps : Bool)
    (windowId : Nat) (o : Oracle) (st : WorldState) (h : registryInv st)
    (hl : lookupReg st.registry windowId = none) :
    registryInv (serveFolderStart root useHttps windowId o st).state := by
  obtain ⟨hrn, hln, hrl, hlo⟩ := h
  obtain ⟨pr, be⟩ := o
  rcases pr with e | port
  · exact ⟨hrn, hln, hrl, hlo⟩
  · rcases be with _ | e
    · exact registryInv_after_bind st.registry st.live st.nextLid windowId root useHttps port
        hrn hln (fun p hp _ => (hrl p hp).1) (fun p hp => (hrl p hp).2)
        (fun l hm => by
          obtain ⟨p, hpm, hp1, _⟩ := hlo (windowId, l) hm
          exact ne_of_lookupReg_none hl hpm hp1)
        hlo
    · exact ⟨hrn, hln, hrl, hlo⟩

/-- A successful bind replacing the record of `windowId` (whose old
listener was closed first) preserves the registry invariant. -/
theorem registryInv_replace_bind (st : WorldState) (rec : ServerRecord) (windowId : Nat)
    (root : String) (useHttps : Bool) (port : Nat) (h : registryInv st)
    (hl : lookupReg st.registry windowId = some rec) :
    registryInv ⟨setReg st.registry windowId ⟨⟨port, root, useHttps⟩, ⟨st.nextLid, root, port⟩⟩,
      (windowId, ⟨st.nextLid, root, port⟩) :: closeFromLive st.live windowId rec.httpServer,
      st.nextLid + 1⟩ := by
  obtain ⟨hrn, hln, hrl, hlo⟩ := h
  refine registryInv_after_bind st.registry _ st.nextLid windowId root useHttps port hrn
    (keysNodup_sub (closeFromLive_sublist st.live windowId rec.httpServer) hln)
    ?_ (fun p hp => (hrl p hp).2) ?_ ?_
  · intro p hp hpne
    refine mem_closeFromLive.mpr ⟨(hrl p hp).1, ?_⟩
    rintro ⟨h1, _⟩
    exact hpne h1
  · intro l hm
    obtain ⟨hm0, hnn⟩ := mem_closeFromLive.mp hm
    obtain ⟨p, hpm, hp1, hp2⟩ := hlo (windowId, l) hm0
    have hlp : lookupReg st.registry p.1 = some p.2 := lookupReg_eq_of_mem_nodup hrn hpm
    have hp1w : p.1 = windowId := hp1
    rw [hp1w, hl] at hlp
    apply hnn
    refine ⟨rfl, ?_⟩
    have hp2l : p.2.httpServer = l := hp2
    rw [← hp2l, Option.some.inj hlp]
  · intro q hq
    exact hlo q (mem_closeFromLive.mp hq).1

/-- A successful `serveFolder` call preserves the registry invariant. -/
theorem registryInv_serveFolder_ok (root : String) (useHttps : Bool) (windowId : Nat)
    (o : Oracle) (st : WorldState) (p : ServerParams) (h : registryInv st)
    (hok : (serveFolder root useHttps windowId o st).outcome = .success p) :
    registryInv (serveFolder root useHttps windowId o st).state := by
  unfold serveFolder at hok ⊢
  rcases hl : lookupReg st.registry windowId with _ | rec <;> rw [hl] at hok
  · exact registryInv_serveFolderStart_fresh root useHttps windowId o st h hl
  · dsimp only at hok ⊢
    by_cases hro : rec.serverParams.root = root
    · rw [if_pos hro] at hok ⊢
      exact h
    · rw [if_neg hro] at hok ⊢
      obtain ⟨pr, be⟩ := o
      rcases pr with e | port
      · exact absurd hok (by simp [serveFolderStart])
      · rcases be with _ | e
        · exact registryInv_replace_bind st rec windowId root useHttps port h hl
        · exact absurd hok (by simp [serveFolderStart])

/-- A `serveFolder` call for a window with no registry record preserves
the registry invariant, also on its failure paths. -/
theorem registryInv_serveFolder_fresh (root : String) (useHttps : Bool) (windowId : Nat)
    (o : Oracle) (st : WorldState) (h : registryInv st)
    (hl : lookupReg st.registry windowId = none) :
    registryInv (serveFolder root useHttps windowId o st).state := by
  unfold serveFolder
  rw [hl]
  exact registryInv_serveFolderStart_fresh root useHttps windowId o st h hl

/-- Every `serveFolder` call — failure paths included — preserves the
at-most-one-live-listener-per-window part of the invariant. -/
theorem keysNodup_live_serveFolder (root : String) (useHttps : Bool) (windowId : Nat)
    (o : Oracle) (st : WorldState) (h : registryInv st) :
    keysNodup (serveFolder root useHttps windowId o st).state.live := by
  unfold serveFolder
  rcases hl : lookupReg st.registry windowId with _ | rec
  · exact (registryInv_serveFolderStart_fresh root useHttps windowId o st h hl).2.1
  · dsimp only
    by_cases hro : rec.serverParams.root = root
    · rw [if_pos hro]
      exact h.2.1
    · rw [if_neg hro]
      obtain ⟨pr, be⟩ := o
      rcases pr with e | port
      · exact keysNodup_sub (closeFromLive_sublist st.live windowId rec.httpServer) h.2.1
      · rcases be with _ | e
        · exact (registryInv_replace_bind st rec windowId root useHttps port h hl).2.1
        · exact keysNodup_sub (closeFromLive_sublist st.live windowId rec.httpServer) h.2.1

/-- C4 counterexample: the claimed invariant is not preserved by
`serveFolder`'s failure paths. Starting from the reachable state where
window 1 serves `/a` (on which both the claimed and the strengthened
invariant hold), a `serveFolder` call for the same window with root `/b`
whose port allocation fails closes the old listener (lines 22–28) but
leaves the stale record in `serversByWindow`: afterwards a record for
window 1 exists whose `params.root` matches no currently-bound listener —
there is no live listener for window 1 at all. -/
theorem registry_invariant_cex :
    registryInv (serveFolder "/a" false 1 ⟨.ok 2929, none⟩ ⟨[], [], 0⟩).state ∧
    claimInv (serveFolder "/a" false 1 ⟨.ok 2929, none⟩ ⟨[], [], 0⟩).state ∧
    (serveFolder "/b" false 1 ⟨.error 7, none⟩
        (serveFolder "/a" false 1 ⟨.ok 2929, none⟩ ⟨[], [], 0⟩).state).outcome =
      .failure 7 ∧
    ¬ claimInv (serveFolder "/b" false 1 ⟨.error 7, none⟩
        (serveFolder "/a" false 1 ⟨.ok 2929, none⟩ ⟨[], [], 0⟩).state).state :=
  ⟨by decide, by decide, by decide, by decide⟩

/-- C4 as amended: the invariant — strengthened to be inductive (registry
keys unique, at most one live listener per window, every record bound to a
live listener whose creation root matches its `params.root`, every live
listener owned by a record) — is preserved by `stopServer`, by
`stopAllServers`, by every successful `serveFolder` call, and by every
`serveFolder` call for a window with no existing record (failure paths
included); and the at-most-one-live-listener-per-window component is
preserved by every `serveFolder` call unconditionally. What fails —
necessarily excluded here — is only the combination shown in the
counterexample: a `serveFolder` failure path that had closed the previous
different-root listener of the window. -/
theorem registry_invariant_amended :
    (∀ (windowId : Nat) (closeErr : Option Nat) (st : WorldState), registryInv st →
      registryInv (stopServer windowId closeErr st).1) ∧
    (∀ st : WorldState, registryInv st → registryInv (stopAllServers st)) ∧
    (∀ (root : String) (useHttps : Bool) (windowId : Nat) (o : Oracle) (st : WorldState)
      (p : ServerParams), registryInv st →
      (serveFolder root useHttps windowId o st).outcome = CallbackResult.success p →
      registryInv (serveFolder root useHttps windowId o st).state) ∧
    (∀ (root : String) (useHttps : Bool) (windowId : Nat) (o : Oracle) (st : WorldState),
      registryInv st → lookupReg st.registry windowId = none →
      registryInv (serveFolder root useHttps windowId o st).state) ∧
    (∀ (root : String) (useHttps : Bool) (windowId : Nat) (o : Oracle) (st : WorldState),
      registryInv st →
      keysNodup (serveFolder root useHttps windowId o st).state.live) :=
  ⟨registryInv_stopServer, registryInv_stopAllServers, registryInv_serveFolder_ok,
   registryInv_serveFolder_fresh, keysNodup_live_serveFolder⟩

/-- Witness for the amended C4 on concrete states and oracles. -/
theorem registry_invariant_amended_witness :
    registryInv (stopServer 1 (some 5) demoState).1 ∧
    registryInv (stopAllServers demoState) ∧
    registryInv (serveFolder "/b" false 1 ⟨.ok 2930, none⟩ demoState).state ∧
    registryInv (serveFolder "/c" false 2 ⟨.error 7, none⟩ demoState).state ∧
    keysNodup (serveFolder "/b" false 1 ⟨.error 7, none⟩ demoState).state.live :=
  ⟨registry_invariant_amended.1 1 (some 5) demoState (by decide),
   registry_invariant_amended.2.1 demoState (by decide),
   registry_invariant_amended.2.2.1 "/b" false 1 ⟨.ok 2930, none⟩ demoState
     ⟨2930, "/b", false⟩ (by decide) (by decide),
   registry_invariant_amended.2.2.2.1 "/c" false 2 ⟨.error 7, none⟩ demoState
     (by decide) (by decide),
   registry_invariant_amended.2.2.2.2 "/b" false 1 ⟨.error 7, none⟩ demoState (by decide)⟩

end ServeFolder
